import Mathlib

/-
Verification of the binary matrix codecs in wsp-sag/matrix_converters
(src/matrix_converters/common.py, emme.py, fortran.py).

Embedding conventions (shallow):

* A float32 element is modelled by its raw 32-bit pattern, a `Nat` below
  2^32.  All the codecs here move 4-byte words between buffers without any
  numeric computation on the float values, so a round trip of patterns is
  exactly a round trip of float32 values; `astype(np.float32)` applied to
  data that is already float32 is the identity and is modelled as such.
* A binary stream is a `List Nat` of consecutive 4-byte little-endian
  words, exactly the granularity at which every codec in this repository
  reads and writes (`np.fromfile`/`tofile` with 4-byte dtypes); a float64
  element (MDF dtype tag 2) occupies two consecutive words, low word first.
* int32 values (labels, FORTRAN row indices) are serialized through their
  two's-complement pattern: `int32ToWord` / `int32OfWord` model the numpy
  reinterpretation `np.frombuffer(x.tobytes(), other_dtype)` used at
  fortran.py:50 and fortran.py:174, which is the identity on raw patterns.
* `pd.DataFrame` is modelled as row labels + column labels + row-major
  data; a reindexed frame (fortran.py:71) has `Option` cells, `none`
  standing for a missing value (NaN), which is what pandas produces for
  absent entries when `fill_value=None`.
* numpy in-place shape assignment `a.shape = ...` (emme.py:150,
  fortran.py:55, fortran.py:62, fortran.py:116, fortran.py:124) raises
  ValueError when the total size differs and AttributeError when the view
  cannot be reshaped without a copy; `inPlaceFlatten` models both checks
  for the strided 2-D views these lines operate on.
* Python exceptions are an explicit error type; `assertionError` stands
  for the `assert` failures that the specification calls ShapeError.
-/

set_option maxHeartbeats 1000000

namespace MatrixConverters

/-- Python-level failures observable from the codecs. `headerError` models
the IOError raised at emme.py:31, which formats the four offending header
fields into its message (the specification calls it HeaderError). -/
inductive PyError where
  | headerError (magic version dtypeIndex ndim : Nat)
  | assertionError
  | truncatedData
  | valueError
  | attributeError
  | indexError
  | fileNotFound
  | notWritable
  deriving Repr, DecidableEq

/-- Model of a `pd.DataFrame`: row labels, column labels, row-major cell
words. Well-formedness (data.length = index.length, every row of length
columns.length) is carried as hypotheses by the theorems that need it. -/
structure DataFrame where
  index : List Int
  columns : List Int
  data : List (List Nat)
  deriving Repr, DecidableEq

/-- The `zones` argument accepted by the decoders: Python's None, an int,
or an iterable of zone labels (modelled as an int list, matching the
int32 zone identifiers used by the formats). -/
inductive Zones where
  | none
  | int (k : Nat)
  | labels (zs : List Int)
  deriving Repr, DecidableEq

/-- Decoder results: a 1-D ndarray, a 2-D ndarray, a DataFrame, a
row-reindexed DataFrame whose cells may be missing (NaN), a Series with an
int32 label axis, or a stacked (tall) frame of ((row label, column label),
value) pairs. -/
inductive PyObj where
  | flat (xs : List Nat)
  | mat (rows : List (List Nat))
  | frame (df : DataFrame)
  | rframe (index columns : List Int) (data : List (List (Option Nat)))
  | series (labels : List Int) (vals : List Nat)
  | stacked (cells : List ((Int × Int) × Nat))
  deriving Repr, DecidableEq

instance {ε α : Type} [DecidableEq ε] [DecidableEq α] :
    DecidableEq (Except ε α) := fun a b =>
  match a, b with
  | .error e, .error f =>
    if h : e = f then .isTrue (h ▸ rfl)
    else .isFalse (fun hc => h (Except.error.inj hc))
  | .ok x, .ok y =>
    if h : x = y then .isTrue (h ▸ rfl)
    else .isFalse (fun hc => h (Except.ok.inj hc))
  | .error _, .ok _ => .isFalse (fun hc => Except.noConfusion hc)
  | .ok _, .error _ => .isFalse (fun hc => Except.noConfusion hc)

/-- Two's-complement 32-bit pattern of an int, as written by
`np.array(..., dtype=np.int32).tobytes()`. -/
def int32ToWord (i : Int) : Nat :=
  (i % 4294967296).toNat

/-- Signed value read back from a 32-bit pattern by
`np.frombuffer(..., dtype=np.int32)`. -/
def int32OfWord (w : Nat) : Int :=
  if w < 2147483648 then (w : Int) else (w : Int) - 4294967296

theorem int32OfWord_int32ToWord (i : Int)
    (hlo : -2147483648 ≤ i) (hhi : i < 2147483648) :
    int32OfWord (int32ToWord i) = i := by
  unfold int32ToWord int32OfWord
  rcases le_or_lt 0 i with hpos | hneg
  · have hmod : i % 4294967296 = i := Int.emod_eq_of_lt hpos (by omega)
    rw [hmod]
    have h0 : (i.toNat : Int) = i := Int.toNat_of_nonneg hpos
    have : i.toNat < 2147483648 := by omega
    simp [this, h0]
  · have hmod : i % 4294967296 = i + 4294967296 := by omega
    rw [hmod]
    have hge : (0 : Int) ≤ i + 4294967296 := by omega
    have h0 : ((i + 4294967296).toNat : Int) = i + 4294967296 :=
      Int.toNat_of_nonneg hge
    have : ¬ (i + 4294967296).toNat < 2147483648 := by omega
    simp only [this, if_false]
    omega

/-- Row-major flattening of a 2-D buffer, as produced by `tofile` on a
C-contiguous array. -/
def flatten (m : List (List α)) : List α :=
  m.flatten

/-- Splitting a flat buffer into `rows` rows of width `cols`: the view of
an in-place shape assignment `a.shape = rows, cols` on a freshly read
contiguous 1-D array (row `i` is the slice `[i*cols, (i+1)*cols)`). -/
def takeRows (rows cols : Nat) (s : List α) : List (List α) :=
  (List.range rows).map (fun i => (s.drop (i * cols)).take cols)

/-- Reading exactly `n` words from a stream (`np.fromfile` with a count,
followed by a use that requires all `n` elements to be present). -/
def readN (n : Nat) (s : List Nat) : Except PyError (List Nat × List Nat) :=
  if n ≤ s.length then .ok (s.take n, s.drop n) else .error .truncatedData

theorem readN_error {n : Nat} {s : List Nat} {e : PyError}
    (h : readN n s = .error e) : e = .truncatedData := by
  unfold readN at h
  split at h
  · exact absurd h (by simp)
  · exact (Except.error.inj h).symm

theorem readN_exact {l₁ : List Nat} (l₂ : List Nat) {n : Nat}
    (h : l₁.length = n) : readN n (l₁ ++ l₂) = .ok (l₁, l₂) := by
  subst h
  simp [readN, List.take_left, List.drop_left]

theorem takeRows_flatten {c : Nat} :
    ∀ (m : List (List α)), (∀ r ∈ m, r.length = c) →
      takeRows m.length c (flatten m) = m
  | [], _ => rfl
  | row :: rest, h => by
    have hrow : row.length = c := h row (by simp)
    have htail : ∀ r ∈ rest, r.length = c := fun r hr => h r (by simp [hr])
    show takeRows (rest.length + 1) c (row ++ flatten rest) = row :: rest
    rw [takeRows, List.range_succ_eq_map, List.map_cons]
    have hhead : ((row ++ flatten rest).drop (0 * c)).take c = row := by
      rw [Nat.zero_mul, List.drop_zero, ← hrow, List.take_left]
    rw [hhead, List.map_map]
    have hstep : ∀ i,
        ((row ++ flatten rest).drop (Nat.succ i * c)).take c =
          ((flatten rest).drop (i * c)).take c := by
      intro i
      have : Nat.succ i * c = c + i * c := by
        rw [Nat.succ_mul, Nat.add_comm]
      rw [this, ← List.drop_drop, ← hrow, List.drop_left]
    have : ((fun i => ((row ++ flatten rest).drop (i * c)).take c) ∘ Nat.succ)
        = fun i => ((flatten rest).drop (i * c)).take c := by
      funext i
      exact hstep i
    rw [this]
    exact congrArg _ (takeRows_flatten rest htail)

theorem flatten_length_uniform {c : Nat} :
    ∀ (m : List (List α)), (∀ r ∈ m, r.length = c) →
      (flatten m).length = m.length * c
  | [], _ => by simp [flatten]
  | row :: rest, h => by
    have hrow : row.length = c := h row (by simp)
    have htail : ∀ r ∈ rest, r.length = c := fun r hr => h r (by simp [hr])
    show (row ++ flatten rest).length = (rest.length + 1) * c
    rw [List.length_append, hrow, flatten_length_uniform rest htail]
    ring

/-- common.py:8, `coerce_matrix`, for DataFrame input (the only input kind
the claims exercise): when `force_square` the index must equal the columns
(common.py:21), then the values are converted to float32 — the identity on
data that is already float32 in the bit-pattern model. The copy semantics
(`to_numpy(copy=True)`) has no observable effect on immutable lists. -/
def coerce_matrix (m : DataFrame) (force_square : Bool) :
    Except PyError (List (List Nat)) :=
  if force_square ∧ m.index ≠ m.columns then .error .assertionError
  else .ok m.data

/-- emme.py:28-32: the four uint32 header words of an MDF stream, with the
magic/version/dtype/rank check; the IOError carries all four fields. -/
def readMdfHeader (s : List Nat) :
    Except PyError (Nat × Nat × Nat × Nat × List Nat) :=
  match s with
  | w0 :: w1 :: w2 :: w3 :: rest =>
    if w0 ≠ 0xC4D4F1B2 ∨ w1 ≠ 1 ∨ ¬(0 < w2 ∧ w2 ≤ 4) ∨ ¬(0 < w3 ∧ w3 ≤ 2) then
      .error (.headerError w0 w1 w2 w3)
    else .ok (w0, w1, w2, w3, rest)
  | _ => .error .truncatedData

/-- Pairing consecutive 4-byte words into float64 elements (low word
first), for MDF dtype tag 2. -/
def combine64 (count : Nat) (ws : List Nat) : List Nat :=
  (List.range count).map (fun i => ws.getD (2 * i) 0 + 4294967296 * ws.getD (2 * i + 1) 0)

/-- emme.py:41-43: reading `count` payload elements of the dtype selected
by the header tag; tags 1, 3, 4 are one word per element, tag 2 (float64)
is two. -/
def readPayload (tIdx count : Nat) (s : List Nat) :
    Except PyError (List Nat × List Nat) :=
  if tIdx = 2 then
    match readN (count * 2) s with
    | .error e => .error e
    | .ok (ws, r) => .ok (combine64 count ws, r)
  else readN count s

/-- emme.py:34-56 for `raw=False`, `tall=False` (the default labeled wide
path, the one the claims exercise): everything `_from_mdf` does after the
header check — read the shape, the per-axis int32 label arrays (the loop
of emme.py:36-39 unrolled for the two ranks the header check admits), and
`prod(shape)` payload elements of the tagged dtype, then wrap as a Series
(rank 1) or a DataFrame (rank 2). Element counts must be present in the
stream (a short `np.fromfile` makes the reshape or the constructor fail
downstream). -/
def mdfBody (tIdx nd : Nat) (r0 : List Nat) : Except PyError PyObj :=
  if nd = 1 then
    match readN 1 r0 with
    | .error e => .error e
    | .ok (shapeWs, r1) =>
      let n := shapeWs.getD 0 0
      match readN n r1 with
      | .error e => .error e
      | .ok (labelWs, r2) =>
        match readPayload tIdx n r2 with
        | .error e => .error e
        | .ok (vals, _) => .ok (.series (labelWs.map int32OfWord) vals)
  else
    match readN 2 r0 with
    | .error e => .error e
    | .ok (shapeWs, r1) =>
      let n := shapeWs.getD 0 0
      let c := shapeWs.getD 1 0
      match readN n r1 with
      | .error e => .error e
      | .ok (rowWs, r2) =>
        match readN c r2 with
        | .error e => .error e
        | .ok (colWs, r3) =>
          match readPayload tIdx (n * c) r3 with
          | .error e => .error e
          | .ok (vals, _) =>
            .ok (.frame ⟨rowWs.map int32OfWord, colWs.map int32OfWord,
              takeRows n c vals⟩)

/-- emme.py:27-58, `_from_mdf` with `raw=False`, `tall=False`: the header
check followed by the body above. -/
def _from_mdf (s : List Nat) : Except PyError PyObj :=
  match readMdfHeader s with
  | .error e => .error e
  | .ok (_, _, tIdx, nd, r0) => mdfBody tIdx nd r0

/-- emme.py:78-87, `_to_mdf`: coerce (labels required, squareness
enforced), then header `[magic, 1, 1, 2]`, the shape as uint32, the two
int32 label arrays, and the float32 payload. For a well-formed frame the
coerced array's shape is `(index.length, columns.length)`; uint32 writes
wrap modulo 2^32. -/
def _to_mdf (m : DataFrame) : Except PyError (List Nat) :=
  match coerce_matrix m true with
  | .error e => .error e
  | .ok data =>
    .ok ([0xC4D4F1B2, 1, 1, 2]
      ++ [m.index.length % 4294967296, m.columns.length % 4294967296]
      ++ m.index.map int32ToWord
      ++ m.columns.map int32ToWord
      ++ flatten data)

/-- numpy's no-copy test for flattening a 2-D view of shape `(r, c)` whose
strides are `(stride, 1)` elements: the elements are equally spaced (so an
in-place 1-D reshape is possible) exactly when the view is empty, has a
single row or a single column, or is a contiguous block (`stride = c`). -/
def nocopyOk (r c stride : Nat) : Bool :=
  decide (r * c = 0 ∨ r ≤ 1 ∨ c ≤ 1 ∨ stride = c)

/-- In-place shape assignment `view.shape = target` flattening a strided
2-D view (emme.py:150, fortran.py:55, 62, 116, 124): numpy first checks
the total size (ValueError), then whether the data can be reshaped without
a copy (AttributeError: incompatible shape for in-place modification). -/
def inPlaceFlatten (view : List (List Nat)) (r c stride target : Nat) :
    Except PyError (List Nat) :=
  if target ≠ r * c then .error .valueError
  else if nocopyOk r c stride then .ok (flatten view) else .error .attributeError

/-- DataFrame.stack() for a frame with no missing values: the row-major
((row label, column label), value) pairs. The claims never stack a frame
holding NaN words, so the dropna step of pandas is invisible here. -/
def stackFrame (df : DataFrame) : List ((Int × Int) × Nat) :=
  flatten ((df.index.zip df.data).map
    (fun p => (df.columns.zip p.2).map (fun q => ((p.1, q.1), q.2))))

/-- emme.py:135-162, `_from_emx`: read everything as float32, infer the
square side `n = int(sqrt(len))` (exact integer square root; the float64
sqrt of the source is exact on these sizes), assert squareness, then
branch on `zones`. The `data[:k, :k]` slices keep the parent row stride
`n`, so the tall reshapes go through `inPlaceFlatten`. A label sequence of
length `k` requires `k ≤ n`, otherwise the DataFrame constructor rejects
the `(min k n, min k n)` block (ValueError). -/
def _from_emx (s : List Nat) (zones : Zones) (tall : Bool) :
    Except PyError PyObj :=
  let n := Nat.sqrt s.length
  if s.length ≠ n * n then .error .assertionError
  else
    match zones with
    | .none =>
      if tall then .ok (.flat s) else .ok (.mat (takeRows n n s))
    | .int k =>
      let d := ((takeRows n n s).take k).map (List.take k)
      if tall then (inPlaceFlatten d (min k n) (min k n) n (k * k)).map .flat
      else .ok (.mat d)
    | .labels zs =>
      let k := zs.length
      let d := ((takeRows n n s).take k).map (List.take k)
      if k ≤ n then
        if tall then .ok (.stacked (stackFrame ⟨zs, zs, d⟩))
        else .ok (.frame ⟨zs, zs, d⟩)
      else .error .valueError

/-- emme.py:185-194, `_to_emx` after coercion: truncate to the leading
`(max_zones, max_zones)` block when the matrix is larger, otherwise copy
it into the top-left corner of a zero `(max_zones, max_zones)` buffer. -/
def emxBuffer (data : List (List Nat)) (max_zones : Nat) : List Nat :=
  if max_zones < data.length then
    flatten ((data.take max_zones).map (List.take max_zones))
  else
    flatten (data.map (fun row => row ++ List.replicate (max_zones - data.length) 0)
      ++ List.replicate (max_zones - data.length)
          (List.replicate max_zones 0))

/-- emme.py:185-194, `_to_emx`: coerce the input (square enforced) and
write the truncated/padded buffer. -/
def _to_emx (m : DataFrame) (max_zones : Nat) : Except PyError (List Nat) :=
  match coerce_matrix m true with
  | .error e => .error e
  | .ok data => .ok (emxBuffer data max_zones)

/-- emme.py:165-182, `to_emx` minus the file plumbing: asserts
`emmebank_zones > 0`, then delegates to `_to_emx`. -/
def to_emx (m : DataFrame) (emmebank_zones : Nat) : Except PyError (List Nat) :=
  if emmebank_zones = 0 then .error .assertionError
  else _to_emx m emmebank_zones

/-- fortran.py:166-177, `_to_fortran` row construction: row `r` of the
`(rows, cols+1)` buffer is the two's-complement pattern of the int32
`mindex + r` (the `np.frombuffer(index.tobytes(), np.float32)` bit
reinterpretation leaves the pattern unchanged) followed by the data row. -/
def fortranRows (mindex : Int) : List (List Nat) → List (List Nat)
  | [] => []
  | row :: rest => (int32ToWord mindex :: row) :: fortranRows (mindex + 1) rest

/-- fortran.py:166-177, `_to_fortran`: the words written for a coerced
array, row-major. -/
def _to_fortran (array : List (List Nat)) (mindex : Int) : List Nat :=
  flatten (fortranRows mindex array)

/-- fortran.py:146-163, `to_fortran` minus the file plumbing: coerce with
the given `force_square`, then `_to_fortran` with `min_index`
(default 1). -/
def to_fortran (m : DataFrame) (force_square : Bool) (min_index : Int) :
    Except PyError (List Nat) :=
  match coerce_matrix m force_square with
  | .error e => .error e
  | .ok array => .ok (_to_fortran array min_index)

/-- fortran.py:50: the decoded 0-based row ordinals — column 0 of each
stored row, bit-reinterpreted from float32 back to int32, minus 1. -/
def fortranRowIndex (s : List Nat) (n_columns : Nat) : List Int :=
  (takeRows (s.length / (n_columns + 1)) (n_columns + 1) s).map
    (fun row => int32OfWord (row.headD 0) - 1)

/-- pandas `Index.take` positional lookup (fortran.py:67): a nonnegative
position selects directly, a negative position counts from the end, and
anything out of range raises IndexError. -/
def pdTake (zs : List Int) (i : Int) : Except PyError Int :=
  if 0 ≤ i ∧ i < (zs.length : Int) then .ok (zs.getD i.toNat 0)
  else if -(zs.length : Int) ≤ i ∧ i < 0 then
    .ok (zs.getD (zs.length - (-i).toNat) 0)
  else .error .indexError

/-- fortran.py:67: the decoded row labels — the first `zs.length` stored
row ordinals looked up positionally in the zone label sequence. -/
def fortranRowLabels (s : List Nat) (n_columns : Nat) (zs : List Int) :
    Except PyError (List Int) :=
  ((fortranRowIndex s n_columns).take zs.length).mapM (pdTake zs)

/-- First position of a label in a label list: pandas' unique-index lookup
used by `reindex` to align existing rows. -/
def firstIdx (l : List Int) (x : Int) : Option Nat :=
  match l with
  | [] => Option.none
  | y :: ys => if y = x then some 0 else (firstIdx ys x).map (· + 1)

/-- fortran.py:71, `reindex_axis(zones, axis=0, fill_value=fill_value)`:
every target label keeps its decoded row when present, and gets a row of
`fill_value` cells otherwise — `none` is pandas' NaN fill for the default
`fill_value=None`. pandas refuses to reindex a duplicated axis against
different labels (ValueError), but passes the frame through unchanged
when the target equals the existing index. -/
def reindexRows (rowLabels : List Int) (d : List (List Nat))
    (zs : List Int) (fill_value : Option Nat) :
    Except PyError (List (List (Option Nat))) :=
  if rowLabels.Nodup then
    .ok (zs.map (fun l =>
      match firstIdx rowLabels l with
      | some i => (d.getD i []).map some
      | Option.none => List.replicate (zs.length) fill_value))
  else if rowLabels = zs then .ok (d.map (List.map some))
  else .error .valueError

/-- DataFrame.stack() for a reindexed frame: missing (NaN) cells are
dropped, exactly pandas' dropna behaviour. -/
def stackRFrame (index columns : List Int) (d : List (List (Option Nat))) :
    List ((Int × Int) × Nat) :=
  flatten ((index.zip d).map (fun p =>
    (columns.zip p.2).filterMap (fun q =>
      match q.2 with
      | some v => some ((p.1, q.1), v)
      | Option.none => Option.none)))

/-- fortran.py:40-75, `_from_fortran_binary`: the exact-length check
(`rows = len // (n_columns+1)` and the assert), the row split, the
bit-reinterpreted row index, and the zones branches. `matrix[:, 1:]` is a
`(rows, n_columns)` view of row stride `n_columns + 1`, so every tall
reshape goes through `inPlaceFlatten`. With a label sequence of length
`m`, the DataFrame constructor requires the truncated block to have
exactly `m` columns (`m ≤ n_columns`), and `reindex_rows` applies pandas
reindexing on the row axis. -/
def _from_fortran_binary (s : List Nat) (n_columns : Nat) (zones : Zones)
    (tall reindex_rows : Bool) (fill_value : Option Nat) :
    Except PyError PyObj :=
  let rows := s.length / (n_columns + 1)
  if s.length ≠ rows * (n_columns + 1) then .error .assertionError
  else
    let dataB := (takeRows rows (n_columns + 1) s).map (List.drop 1)
    match zones with
    | .none =>
      if tall then
        (inPlaceFlatten dataB rows n_columns (n_columns + 1)
          (rows * n_columns)).map .flat
      else .ok (.mat dataB)
    | .int k =>
      let d := (dataB.take k).map (List.take k)
      if tall then
        (inPlaceFlatten d (min rows k) (min n_columns k) (n_columns + 1)
          (k * k)).map .flat
      else .ok (.mat d)
    | .labels zs =>
      let m := zs.length
      let d := (dataB.take m).map (List.take m)
      match fortranRowLabels s n_columns zs with
      | .error e => .error e
      | .ok rowLabels =>
        if m ≤ n_columns then
          if reindex_rows then
            match reindexRows rowLabels d zs fill_value with
            | .error e => .error e
            | .ok dR =>
              if tall then .ok (.stacked (stackRFrame zs zs dR))
              else .ok (.rframe zs zs dR)
          else
            if tall then .ok (.stacked (stackFrame ⟨rowLabels, zs, d⟩))
            else .ok (.frame ⟨rowLabels, zs, d⟩)
        else .error .valueError

/-- fortran.py:139-143, `_infer_zones`: solve `n_words = n * (n + 1)` via
`n = int(0.5 + sqrt(1 + 4*n_words)/2) - 1` and assert exactness. With the
exact integer square root, `(1 + Nat.sqrt (1 + 4*w)) / 2 - 1` equals the
floor expression of the source (the float64 sqrt is exact at these
sizes). The assert is the ShapeError of the specification. -/
def _infer_zones (n_words : Nat) : Except PyError Nat :=
  let n := (1 + Nat.sqrt (1 + 4 * n_words)) / 2 - 1
  if n_words = n * (n + 1) then .ok n else .error .assertionError

/-- fortran.py:104-136, `_from_fortran_square`: infer the side from the
total count, split into `(n, n+1)` rows, discard the index column (a
`(n, n)` view of row stride `n + 1`), then the same zones branches as the
EMX decoder; a label sequence of length `k` requires `k ≤ n` for the
DataFrame constructor. -/
def _from_fortran_square (s : List Nat) (zones : Zones) (tall : Bool) :
    Except PyError PyObj :=
  match _infer_zones s.length with
  | .error e => .error e
  | .ok n =>
    let dataB := (takeRows n (n + 1) s).map (List.drop 1)
    match zones with
    | .none =>
      if tall then
        (inPlaceFlatten dataB n n (n + 1) (n * n)).map .flat
      else .ok (.mat dataB)
    | .int k =>
      let d := (dataB.take k).map (List.take k)
      if tall then
        (inPlaceFlatten d (min n k) (min n k) (n + 1) (k * k)).map .flat
      else .ok (.mat d)
    | .labels zs =>
      let k := zs.length
      let d := (dataB.take k).map (List.take k)
      if k ≤ n then
        if tall then .ok (.stacked (stackFrame ⟨zs, zs, d⟩))
        else .ok (.frame ⟨zs, zs, d⟩)
      else .error .valueError

/-- common.py:46-71 data model: an n-dimensional numpy array as a shape,
a dtype tag, and a value function on index vectors (meaningful on indices
that are pointwise within the shape). -/
structure NdArray where
  shape : List Nat
  dtypeTag : Nat
  val : List Nat → Nat

/-- Pointwise bounds check of an index vector against a shape. -/
def inBoundsIdx (shape idx : List Nat) : Bool :=
  idx.length == shape.length && (idx.zip shape).all (fun p => decide (p.1 < p.2))

/-- common.py:46-71, `expand_array`: with `axis=None` every dimension
grows by `n`; with an integer axis, each position `i` grows only when
`i == axis` (an out-of-range or negative axis matches no position and is
silently ignored — the loop raises nothing). The output is a zero buffer
of the same dtype with the original copied into the leading block. -/
def expand_array (a : NdArray) (n : Nat) (axis : Option Int) : NdArray :=
  { shape :=
      match axis with
      | Option.none => a.shape.map (· + n)
      | some ax =>
        a.shape.enum.map (fun p => if (p.1 : Int) = ax then p.2 + n else p.2)
    dtypeTag := a.dtypeTag
    val := fun idx => if inBoundsIdx a.shape idx then a.val idx else 0 }

/-- The mode string with which emme.py:72 opens a path given to `to_mdf`:
read-binary, not write-binary. -/
def to_mdf_mode : String := "rb"

/-- An open Python 2 file handle, reduced to what the claims observe:
whether it accepts writes. -/
structure PyFile where
  writable : Bool
  deriving Repr, DecidableEq

/-- Python `open(path, mode)` for the two modes this repository uses:
read-binary requires the file to exist and yields a non-writable handle;
write-binary always yields a writable one. -/
def pyOpen (fileExists : Bool) (mode : String) : Except PyError PyFile :=
  if mode = "rb" then
    if fileExists then .ok { writable := false } else .error .fileNotFound
  else if mode = "wb" then .ok { writable := true }
  else .error .valueError

/-- A `tofile` call on a handle: appends the words when the handle is
writable, raises otherwise (io.UnsupportedOperation / IOError on a
read-only descriptor) without emitting anything. -/
def fileWrite (f : PyFile) (buf : List Nat) (ws : List Nat) :
    Except PyError (List Nat) :=
  if f.writable then .ok (buf ++ ws) else .error .notWritable

/-- emme.py:61-87, `to_mdf` for a string path: opens the path with
`to_mdf_mode` (emme.py:72), then `_to_mdf` coerces and performs its five
sequential `tofile` writes. Returns the bytes (words) actually written to
the file together with the raised error, if any. -/
def to_mdf (fileExists : Bool) (m : DataFrame) : List Nat × Option PyError :=
  match pyOpen fileExists to_mdf_mode with
  | .error e => ([], some e)
  | .ok f =>
    match coerce_matrix m true with
    | .error e => ([], some e)
    | .ok data =>
      match fileWrite f [] [0xC4D4F1B2, 1, 1, 2] with
      | .error e => ([], some e)
      | .ok b1 =>
        match fileWrite f b1
            [m.index.length % 4294967296, m.columns.length % 4294967296] with
        | .error e => (b1, some e)
        | .ok b2 =>
          match fileWrite f b2 (m.index.map int32ToWord) with
          | .error e => (b2, some e)
          | .ok b3 =>
            match fileWrite f b3 (m.columns.map int32ToWord) with
            | .error e => (b3, some e)
            | .ok b4 =>
              match fileWrite f b4 (flatten data) with
              | .error e => (b4, some e)
              | .ok b5 => (b5, Option.none)

/-! Helper lemmas shared by the claim theorems. -/

theorem takeRows_length (rows cols : Nat) (s : List α) :
    (takeRows rows cols s).length = rows := by
  simp [takeRows]

theorem takeRows_row_length {rows cols : Nat} {s : List α}
    (h : s.length = rows * cols) :
    ∀ r ∈ takeRows rows cols s, r.length = cols := by
  intro r hr
  rcases List.mem_map.mp hr with ⟨i, hi, hri⟩
  have hilt : i < rows := List.mem_range.mp hi
  subst hri
  have hle : (i + 1) * cols ≤ rows * cols :=
    Nat.mul_le_mul_right cols hilt
  simp only [List.length_take, List.length_drop, h]
  have : i * cols + cols ≤ rows * cols := by
    calc i * cols + cols = (i + 1) * cols := by ring
    _ ≤ rows * cols := hle
  omega

theorem getD_of_getElem? {l : List α} {i : Nat} {x d : α}
    (h : l[i]? = some x) : l.getD i d = x := by
  rw [List.getD_eq_getElem?_getD, h]
  rfl

theorem getElem?_of_getD {l : List α} {i : Nat} (d : α) (h : i < l.length) :
    l[i]? = some (l.getD i d) := by
  rw [List.getElem?_eq_getElem h, List.getD_eq_getElem l d h]

theorem flatten_getElem?_uniform {c : Nat} :
    ∀ (m : List (List α)) (i j : Nat), (∀ r ∈ m, r.length = c) →
      i < m.length → j < c →
      (flatten m)[i * c + j]? = (m.getD i [])[j]?
  | [], i, j, _, hi, _ => by simp at hi
  | row :: rest, 0, j, h, _, hj => by
    have hrow : row.length = c := h row (by simp)
    show (row ++ flatten rest)[0 * c + j]? = _
    rw [Nat.zero_mul, Nat.zero_add, List.getElem?_append, if_pos (by omega)]
    rfl
  | row :: rest, i + 1, j, h, hi, hj => by
    have hrow : row.length = c := h row (by simp)
    have htail : ∀ r ∈ rest, r.length = c := fun r hr => h r (by simp [hr])
    show (row ++ flatten rest)[(i + 1) * c + j]? = _
    have harith : (i + 1) * c + j = row.length + (i * c + j) := by
      rw [hrow]; ring
    rw [harith, List.getElem?_append_right (by omega)]
    have : row.length + (i * c + j) - row.length = i * c + j := by omega
    rw [this]
    have hi2 : i < rest.length := by simpa using hi
    exact flatten_getElem?_uniform rest i j htail hi2 hj

theorem map_ofWord_toWord :
    ∀ (zs : List Int), (∀ l ∈ zs, -2147483648 ≤ l ∧ l < 2147483648) →
      (zs.map int32ToWord).map int32OfWord = zs
  | [], _ => rfl
  | z :: rest, h => by
    have hz := h z (by simp)
    have htail : ∀ l ∈ rest, -2147483648 ≤ l ∧ l < 2147483648 :=
      fun l hl => h l (by simp [hl])
    simp only [List.map_cons, int32OfWord_int32ToWord z hz.1 hz.2]
    exact congrArg _ (map_ofWord_toWord rest htail)

theorem map_take_of_length {c : Nat} :
    ∀ (m : List (List α)), (∀ r ∈ m, r.length = c) →
      m.map (List.take c) = m
  | [], _ => rfl
  | row :: rest, h => by
    have hrow : row.length = c := h row (by simp)
    have htail : ∀ r ∈ rest, r.length = c := fun r hr => h r (by simp [hr])
    simp only [List.map_cons]
    refine congrArg₂ _ ?_ (map_take_of_length rest htail)
    rw [← hrow]
    exact row.take_length

theorem firstIdx_eq_none {x : Int} :
    ∀ {l : List Int}, x ∉ l → firstIdx l x = Option.none
  | [], _ => rfl
  | y :: ys, h => by
    have hxy : y ≠ x := fun hc => h (by simp [hc])
    have hxs : x ∉ ys := fun hc => h (by simp [hc])
    simp [firstIdx, hxy, firstIdx_eq_none hxs]

theorem readN_all (l : List Nat) : readN l.length l = .ok (l, []) := by
  simp [readN]

theorem readPayload_error {t c : Nat} {s : List Nat} {e : PyError}
    (h : readPayload t c s = .error e) : e = .truncatedData := by
  unfold readPayload at h
  split at h
  · cases hr : readN (c * 2) s with
    | error e₂ => rw [hr] at h; cases h; exact readN_error hr
    | ok p => rw [hr] at h; cases h
  · exact readN_error h

theorem fortranRows_length (mindex : Int) :
    ∀ (a : List (List Nat)), (fortranRows mindex a).length = a.length
  | [] => rfl
  | _ :: rest => by
    simp [fortranRows, fortranRows_length (mindex + 1) rest]

theorem fortranRows_row_length {c : Nat} :
    ∀ (a : List (List Nat)) (mindex : Int), (∀ r ∈ a, r.length = c) →
      ∀ r ∈ fortranRows mindex a, r.length = c + 1
  | [], _, _ => by simp [fortranRows]
  | row :: rest, mindex, h => by
    have hrow : row.length = c := h row (by simp)
    have htail : ∀ r ∈ rest, r.length = c := fun r hr => h r (by simp [hr])
    intro r hr
    rcases (by simpa [fortranRows] using hr :
        r = int32ToWord mindex :: row ∨ r ∈ fortranRows (mindex + 1) rest) with
      hcase | hcase
    · simp [hcase, hrow]
    · exact fortranRows_row_length rest (mindex + 1) htail r hcase

theorem fortranRows_map_drop (mindex : Int) :
    ∀ (a : List (List Nat)),
      (fortranRows mindex a).map (List.drop 1) = a
  | [] => rfl
  | row :: rest => by
    simp [fortranRows, fortranRows_map_drop (mindex + 1) rest]

theorem fortranRows_getD :
    ∀ (a : List (List Nat)) (mindex : Int) (r : Nat), r < a.length →
      (fortranRows mindex a).getD r [] =
        int32ToWord (mindex + r) :: a.getD r []
  | [], _, r, hr => by simp at hr
  | row :: rest, mindex, 0, _ => by
    simp [fortranRows]
  | row :: rest, mindex, r + 1, hr => by
    have hr2 : r < rest.length := by simpa using hr
    have := fortranRows_getD rest (mindex + 1) r hr2
    simp only [fortranRows, List.getD_cons_succ, this]
    norm_num
    ring_nf

theorem infer_zones_exact (n : Nat) : _infer_zones (n * (n + 1)) = .ok n := by
  unfold _infer_zones
  have hsq : 1 + 4 * (n * (n + 1)) = (2 * n + 1) * (2 * n + 1) := by ring
  have : Nat.sqrt (1 + 4 * (n * (n + 1))) = 2 * n + 1 := by
    rw [hsq, Nat.sqrt_eq]
  rw [this]
  have : (1 + (2 * n + 1)) / 2 - 1 = n := by omega
  rw [this, if_pos rfl]

/-! Projections used to state properties of decoder results. -/

/-- Row labels of a reindexed frame result. -/
def rfIndex : PyObj → List Int
  | .rframe ix _ _ => ix
  | _ => []

/-- Cell rows of a reindexed frame result. -/
def rfRows : PyObj → List (List (Option Nat))
  | .rframe _ _ d => d
  | _ => []

/-- A concrete 3x3 zero array, used as a test input for `expand_array`. -/
def sq33 : NdArray :=
  { shape := [3, 3], dtypeTag := 1, val := fun _ => 0 }

/-! Claim theorems. -/

/-- C4: for every float32 element count `total` read by the FORTRAN-square
decoder, the inferred size is `n = floor(0.5 + sqrt(1+4*total)/2) - 1`
(`_infer_zones` is written as that expression over the exact integer
square root); the decoder proceeds — reshaping to `(n, n+1)` and
discarding column 0 — exactly when `total = n*(n+1)`, and fails with the
ShapeError assert otherwise. -/
theorem c4_square_inference (s : List Nat) :
    (∀ n : Nat, s.length = n * (n + 1) →
      _infer_zones s.length = .ok n ∧
      _from_fortran_square s Zones.none false =
        .ok (.mat ((takeRows n (n + 1) s).map (List.drop 1)))) ∧
    ((∀ n : Nat, s.length ≠ n * (n + 1)) →
      ∀ (zones : Zones) (tall : Bool),
        _from_fortran_square s zones tall = .error .assertionError) := by
  constructor
  · intro n hn
    have hinfer : _infer_zones s.length = .ok n := by
      rw [hn]; exact infer_zones_exact n
    exact ⟨hinfer, by simp [_from_fortran_square, hinfer]⟩
  · intro h zones tall
    have hinfer : _infer_zones s.length = .error .assertionError := by
      unfold _infer_zones
      rw [if_neg (h _)]
    simp [_from_fortran_square, hinfer]

/-- C4 witness: a 6-word stream factors as 2*(2+1) and decodes to the 2x2
data block; a 5-word stream admits no factorization and fails. -/
theorem c4_square_inference_witness :
    (_infer_zones 6 = .ok 2 ∧
      _from_fortran_square [9, 1, 2, 8, 3, 4] Zones.none false =
        .ok (.mat [[1, 2], [3, 4]])) ∧
    _from_fortran_square [9, 1, 2, 8, 3] Zones.none false =
      .error .assertionError := by
  have hok := (c4_square_inference [9, 1, 2, 8, 3, 4]).1 2 (by norm_num)
  have hno : ∀ n : Nat, ([9, 1, 2, 8, 3] : List Nat).length ≠ n * (n + 1) := by
    intro n
    rcases le_or_lt n 2 with h | h
    · interval_cases n <;> simp
    · have h12 : 3 * 4 ≤ n * (n + 1) := Nat.mul_le_mul (by omega) (by omega)
      intro hc
      rw [← hc] at h12
      simp at h12
  have herr := (c4_square_inference [9, 1, 2, 8, 3]).2 hno Zones.none false
  exact ⟨⟨hok.1, by simpa [takeRows] using hok.2⟩, herr⟩

/-- C5: the rectangular FORTRAN decoder fails with the ShapeError assert
whenever the total float32 count is not an exact multiple of
`n_columns+1` (never silently dropping a partial trailing row), and
passes the length check exactly when `total = rows*(n_columns+1)` with
`rows = total / (n_columns+1)`. -/
theorem c5_rect_length_check (s : List Nat) (n_columns : Nat)
    (hpos : 0 < n_columns) :
    (s.length = s.length / (n_columns + 1) * (n_columns + 1) →
      _from_fortran_binary s n_columns Zones.none false false Option.none =
        .ok (.mat ((takeRows (s.length / (n_columns + 1)) (n_columns + 1) s).map
          (List.drop 1)))) ∧
    (s.length ≠ s.length / (n_columns + 1) * (n_columns + 1) →
      _from_fortran_binary s n_columns Zones.none false false Option.none =
        .error .assertionError) := by
  constructor
  · intro h
    unfold _from_fortran_binary
    rw [if_neg (fun hc => hc h)]
    rfl
  · intro h
    unfold _from_fortran_binary
    rw [if_pos h]

/-- C5 witness: 3 words with 2 columns is exactly one row; 5 words with 2
columns is not a multiple of 3 and fails. -/
theorem c5_rect_length_check_witness :
    _from_fortran_binary [1, 5, 7] 2 Zones.none false false Option.none =
      .ok (.mat [[5, 7]]) ∧
    _from_fortran_binary [1, 5, 7, 2, 9] 2 Zones.none false false Option.none =
      .error .assertionError := by
  have hok := (c5_rect_length_check [1, 5, 7] 2 (by decide)).1 (by decide)
  have herr := (c5_rect_length_check [1, 5, 7, 2, 9] 2 (by decide)).2 (by decide)
  exact ⟨by simpa [takeRows] using hok, herr⟩

/-- Shape entries of `expand_array` with an integer axis, elementwise. -/
theorem expand_array_shape_getElem? (a : NdArray) (n : Nat) (ax : Int)
    (i : Nat) :
    ((expand_array a n (some ax)).shape)[i]? =
      (a.shape[i]?).map (fun d => if (i : Int) = ax then d + n else d) := by
  simp only [expand_array, List.getElem?_map, List.getElem?_enum,
    Option.map_map]
  rfl

/-- C9 (amended): `expand_array` preserves the dtype; with `axis=None`
every dimension grows by `n`; with an integer axis only the position equal
to the axis grows, and an axis outside `0..rank-1` (including negative
values) matches no position, so the shape is returned unchanged and no
IndexError is raised; the region within the original bounds holds the
original values and everything else is zero. -/
theorem c9_expand_semantics (a : NdArray) (n : Nat) :
    (∀ axis, (expand_array a n axis).dtypeTag = a.dtypeTag) ∧
    (expand_array a n Option.none).shape = a.shape.map (· + n) ∧
    (∀ (ax : Int) (i : Nat),
      ((expand_array a n (some ax)).shape)[i]? =
        (a.shape[i]?).map (fun d => if (i : Int) = ax then d + n else d)) ∧
    (∀ ax : Int, (ax < 0 ∨ (a.shape.length : Int) ≤ ax) →
      (expand_array a n (some ax)).shape = a.shape) ∧
    (∀ axis idx,
      (inBoundsIdx a.shape idx = true →
        (expand_array a n axis).val idx = a.val idx) ∧
      (inBoundsIdx a.shape idx = false →
        (expand_array a n axis).val idx = 0)) := by
  refine ⟨fun _ => rfl, rfl, expand_array_shape_getElem? a n, ?_, ?_⟩
  · intro ax hax
    apply List.ext_getElem?
    intro i
    rw [expand_array_shape_getElem? a n ax i]
    by_cases hi : i < a.shape.length
    · have hne : (i : Int) ≠ ax := by
        rcases hax with hneg | hbig
        · have : (0 : Int) ≤ (i : Int) := by positivity
          omega
        · have : (i : Int) < (a.shape.length : Int) := by exact_mod_cast hi
          omega
      rw [List.getElem?_eq_getElem hi]
      simp [hne]
    · rw [List.getElem?_eq_none (by omega)]
      rfl
  · intro axis idx
    constructor
    · intro h
      simp [expand_array, h]
    · intro h
      simp [expand_array, h]

/-- C9 witness: a negative axis is ignored, so expanding the 3x3 array
along axis -1 leaves the shape unchanged. -/
theorem c9_expand_semantics_witness :
    (expand_array sq33 2 (some (-1))).shape = [3, 3] :=
  (c9_expand_semantics sq33 2).2.2.2.1 (-1) (Or.inl (by decide))

/-- C9 counterexample: the claim promises growth on the given axis or an
IndexError for an invalid one, but expanding the 3x3 array along axis 5
silently returns the unchanged shape (3,3) — no dimension grows and
nothing is raised. -/
theorem c9_expand_cex :
    (expand_array sq33 2 (some 5)).shape = [3, 3] ∧
    (expand_array sq33 2 (some 5)).shape ≠ [3, 5] ∧
    (expand_array sq33 2 (some 5)).shape ≠ [5, 3] := by
  refine ⟨?_, ?_, ?_⟩ <;> decide

/-- C10: `to_mdf` given a string path opens it with mode "rb"
(read-binary, not write); therefore a path-based MDF encode fails with
FileNotFound when the path does not exist, fails on the very first header
write when it does exist (the handle is read-only), and in every case
writes no bytes at all. -/
theorem c10_to_mdf_readonly (fileExists : Bool) (m : DataFrame) :
    to_mdf_mode = "rb" ∧
    (to_mdf fileExists m).1 = [] ∧
    (fileExists = false → (to_mdf fileExists m).2 = some .fileNotFound) ∧
    (fileExists = true → ∀ data, coerce_matrix m true = .ok data →
      (to_mdf fileExists m).2 = some .notWritable) := by
  refine ⟨rfl, ?_, ?_, ?_⟩
  · cases fileExists with
    | false => simp [to_mdf, pyOpen, to_mdf_mode]
    | true =>
      cases hc : coerce_matrix m true with
      | error e => simp [to_mdf, pyOpen, to_mdf_mode, hc]
      | ok data => simp [to_mdf, pyOpen, to_mdf_mode, hc, fileWrite]
  · intro hf
    subst hf
    simp [to_mdf, pyOpen, to_mdf_mode]
  · intro hf data hc
    subst hf
    simp [to_mdf, pyOpen, to_mdf_mode, hc, fileWrite]

/-- C10 witness: with an existing target file and a well-formed 1x1
frame, the path-based encode raises the read-only write failure having
written nothing; with a missing target it raises FileNotFound. -/
theorem c10_to_mdf_readonly_witness :
    (to_mdf true ⟨[1], [1], [[2]]⟩).1 = [] ∧
    (to_mdf true ⟨[1], [1], [[2]]⟩).2 = some .notWritable ∧
    (to_mdf false ⟨[1], [1], [[2]]⟩).2 = some .fileNotFound := by
  have h1 := (c10_to_mdf_readonly true ⟨[1], [1], [[2]]⟩).2.1
  have h2 := (c10_to_mdf_readonly true ⟨[1], [1], [[2]]⟩).2.2.2 rfl
    [[2]] (by decide)
  have h3 := (c10_to_mdf_readonly false ⟨[1], [1], [[2]]⟩).2.2.1 rfl
  exact ⟨h1, h2, h3⟩

theorem readN_error_iff {n : Nat} {s : List Nat} {e : PyError} :
    readN n s = .error e ↔ (s.length < n ∧ e = .truncatedData) := by
  unfold readN
  split
  · next h =>
    constructor
    · intro hc; simp at hc
    · rintro ⟨h1, _⟩; omega
  · next h =>
    constructor
    · intro hc
      exact ⟨by omega, (Except.error.inj hc).symm⟩
    · rintro ⟨_, he⟩; rw [he]

theorem readPayload_error_iff {t c : Nat} {s : List Nat} {e : PyError} :
    readPayload t c s = .error e ↔
      ((if t = 2 then s.length < c * 2 else s.length < c) ∧
        e = .truncatedData) := by
  unfold readPayload
  split
  · next ht =>
    cases hr : readN (c * 2) s with
    | error e2 =>
      rw [readN_error_iff] at hr
      simp [hr.1, hr.2, eq_comm]
    | ok p =>
      have hlen : ¬ s.length < c * 2 := by
        revert hr
        unfold readN
        split
        · intro _; omega
        · intro hc; cases hc
      simp [hlen]
  · next ht =>
    exact readN_error_iff

theorem mdfBody_no_headerError (tIdx nd : Nat) (r0 : List Nat) :
    ∀ a b c d, mdfBody tIdx nd r0 ≠ .error (.headerError a b c d) := by
  intro a b c d
  unfold mdfBody
  split
  · split
    · next e heq =>
      rw [readN_error_iff] at heq
      simp [heq.2]
    · next shapeWs r1 heq =>
      dsimp only
      split
      · next e heq2 =>
        rw [readN_error_iff] at heq2
        simp [heq2.2]
      · next labelWs r2 heq2 =>
        split
        · next e heq3 =>
          rw [readPayload_error_iff] at heq3
          simp [heq3.2]
        · next vals rr heq3 => simp
  · split
    · next e heq =>
      rw [readN_error_iff] at heq
      simp [heq.2]
    · next shapeWs r1 heq =>
      dsimp only
      split
      · next e heq2 =>
        rw [readN_error_iff] at heq2
        simp [heq2.2]
      · next rowWs r2 heq2 =>
        split
        · next e heq3 =>
          rw [readN_error_iff] at heq3
          simp [heq3.2]
        · next colWs r3 heq3 =>
          split
          · next e heq4 =>
            rw [readPayload_error_iff] at heq4
            simp [heq4.2]
          · next vals rr heq4 => simp

theorem from_mdf_no_headerError_of_good (w0 w1 w2 w3 : Nat) (rest : List Nat)
    (hgood : ¬(w0 ≠ 0xC4D4F1B2 ∨ w1 ≠ 1 ∨ ¬(0 < w2 ∧ w2 ≤ 4) ∨
      ¬(0 < w3 ∧ w3 ≤ 2))) :
    ∀ a b c d, _from_mdf (w0 :: w1 :: w2 :: w3 :: rest) ≠
      .error (.headerError a b c d) := by
  intro a b c d
  have hok : readMdfHeader (w0 :: w1 :: w2 :: w3 :: rest) =
      .ok (w0, w1, w2, w3, rest) := by
    simp only [readMdfHeader]
    rw [if_neg hgood]
  simp only [_from_mdf, hok]
  exact mdfBody_no_headerError w2 w3 rest a b c d

/-- C6: for every 16-byte header (four uint32 words) read by the MDF
decoder, decoding fails with the header error if and only if the magic
differs from 0xC4D4F1B2, or the version differs from 1, or the
element-type tag is outside 1..4, or the rank is outside 1..2; the raised
error carries the values of all four header fields. No later stage of the
decoder raises a header error. -/
theorem c6_mdf_header_check (w0 w1 w2 w3 : Nat) (rest : List Nat) :
    ((w0 ≠ 0xC4D4F1B2 ∨ w1 ≠ 1 ∨ ¬(0 < w2 ∧ w2 ≤ 4) ∨ ¬(0 < w3 ∧ w3 ≤ 2)) →
      _from_mdf (w0 :: w1 :: w2 :: w3 :: rest) =
        .error (.headerError w0 w1 w2 w3)) ∧
    ((∃ a b c d, _from_mdf (w0 :: w1 :: w2 :: w3 :: rest) =
        .error (.headerError a b c d)) ↔
      (w0 ≠ 0xC4D4F1B2 ∨ w1 ≠ 1 ∨ ¬(0 < w2 ∧ w2 ≤ 4) ∨ ¬(0 < w3 ∧ w3 ≤ 2))) := by
  by_cases hbad : (w0 ≠ 0xC4D4F1B2 ∨ w1 ≠ 1 ∨ ¬(0 < w2 ∧ w2 ≤ 4) ∨
      ¬(0 < w3 ∧ w3 ≤ 2))
  · have hmain : _from_mdf (w0 :: w1 :: w2 :: w3 :: rest) =
        .error (.headerError w0 w1 w2 w3) := by
      have hhdr : readMdfHeader (w0 :: w1 :: w2 :: w3 :: rest) =
          .error (.headerError w0 w1 w2 w3) := by
        simp only [readMdfHeader]
        rw [if_pos hbad]
      simp only [_from_mdf, hhdr]
    exact ⟨fun _ => hmain,
      ⟨fun _ => hbad, fun _ => ⟨w0, w1, w2, w3, hmain⟩⟩⟩
  · refine ⟨fun h => absurd h hbad, ⟨?_, fun h => absurd h hbad⟩⟩
    rintro ⟨a, b, c, d, h⟩
    exact absurd h (from_mdf_no_headerError_of_good w0 w1 w2 w3 rest hbad a b c d)

/-- C6 witness: a wrong magic word is rejected with all four fields in
the error; a well-formed tiny stream decodes without any header error. -/
theorem c6_mdf_header_check_witness :
    _from_mdf [5, 1, 1, 2, 1, 1, 7, 7, 9] =
      .error (.headerError 5 1 1 2) ∧
    _from_mdf [0xC4D4F1B2, 1, 1, 2, 1, 1, 7, 7, 9] ≠
      .error (.headerError 0xC4D4F1B2 1 1 2) := by
  constructor
  · exact (c6_mdf_header_check 5 1 1 2 [1, 1, 7, 7, 9]).1 (by decide)
  · intro hc
    have hgood : ¬((0xC4D4F1B2 : Nat) ≠ 0xC4D4F1B2 ∨ (1 : Nat) ≠ 1 ∨
        ¬(0 < 1 ∧ 1 ≤ 4) ∨ ¬(0 < 2 ∧ 2 ≤ 2)) := by decide
    exact hgood
      ((c6_mdf_header_check 0xC4D4F1B2 1 1 2 [1, 1, 7, 7, 9]).2.mp
        ⟨_, _, _, _, hc⟩)

/-- C3: for every input matrix that coerces to an n-by-n float32 buffer
and every target dimension `d > 0`, the EMX encoder writes exactly `d*d`
float32 elements in row-major order with no header; element `(i, j)` of
the written buffer is the original cell when `i` and `j` both fall inside
the coerced matrix and exactly 0.0 otherwise — covering both the
truncation case (`n > d`: the top-left `d`-by-`d` block) and the padding
case (`n <= d`: the matrix in the top-left corner, zeros elsewhere). -/
theorem c3_emx_encode (m : DataFrame) (data : List (List Nat)) (d : Nat)
    (hc : coerce_matrix m true = .ok data)
    (hrow : ∀ row ∈ data, row.length = data.length)
    (hd : 0 < d) :
    _to_emx m d = .ok (emxBuffer data d) ∧
    (emxBuffer data d).length = d * d ∧
    ∀ i j, i < d → j < d →
      (emxBuffer data d)[i * d + j]? =
        some (if i < data.length ∧ j < data.length
          then (data.getD i []).getD j 0 else 0) := by
  refine ⟨by simp [_to_emx, hc], ?_, ?_⟩
  · by_cases h : d < data.length
    · have huni : ∀ r ∈ (data.take d).map (List.take d), r.length = d := by
        intro r hr
        rcases List.mem_map.mp hr with ⟨row, hmem, hrfl⟩
        have hlen : row.length = data.length :=
          hrow row (List.take_subset d data hmem)
        subst hrfl
        simp [hlen]
        omega
      have hcnt : ((data.take d).map (List.take d)).length = d := by
        simp
        omega
      rw [emxBuffer, if_pos h, flatten_length_uniform _ huni, hcnt]
    · have huni : ∀ r ∈ data.map
          (fun row => row ++ List.replicate (d - data.length) 0) ++
          List.replicate (d - data.length) (List.replicate d 0),
          r.length = d := by
        intro r hr
        rcases List.mem_append.mp hr with hr | hr
        · rcases List.mem_map.mp hr with ⟨row, hmem, hrfl⟩
          subst hrfl
          simp [hrow row hmem]
          omega
        · rw [List.eq_of_mem_replicate hr]
          simp
      have hcnt : (data.map
          (fun row => row ++ List.replicate (d - data.length) 0) ++
          List.replicate (d - data.length) (List.replicate d 0)).length = d := by
        simp
        omega
      rw [emxBuffer, if_neg h, flatten_length_uniform _ huni, hcnt]
  · intro i j hi hj
    by_cases h : d < data.length
    · have huni : ∀ r ∈ (data.take d).map (List.take d), r.length = d := by
        intro r hr
        rcases List.mem_map.mp hr with ⟨row, hmem, hrfl⟩
        have hlen : row.length = data.length :=
          hrow row (List.take_subset d data hmem)
        subst hrfl
        simp [hlen]
        omega
      have hcnt : ((data.take d).map (List.take d)).length = d := by
        simp
        omega
      rw [emxBuffer, if_pos h,
        flatten_getElem?_uniform _ i j huni (by omega) hj]
      have hrowlen : (data.getD i []).length = data.length := by
        rw [List.getD_eq_getElem data [] (by omega)]
        exact hrow _ (List.getElem_mem _)
      have hb : ((data.take d).map (List.take d))[i]? =
          some ((data.getD i []).take d) := by
        rw [List.getElem?_map, List.getElem?_take, if_pos hi,
          getElem?_of_getD [] (by omega)]
        rfl
      rw [getD_of_getElem? hb, List.getElem?_take, if_pos hj,
        getElem?_of_getD 0 (by omega)]
      rw [if_pos ⟨by omega, by omega⟩]
    · rw [emxBuffer, if_neg h]
      have huni : ∀ r ∈ data.map
          (fun row => row ++ List.replicate (d - data.length) 0) ++
          List.replicate (d - data.length) (List.replicate d 0),
          r.length = d := by
        intro r hr
        rcases List.mem_append.mp hr with hr | hr
        · rcases List.mem_map.mp hr with ⟨row, hmem, hrfl⟩
          subst hrfl
          simp [hrow row hmem]
          omega
        · rw [List.eq_of_mem_replicate hr]
          simp
      have hcnt : (data.map
          (fun row => row ++ List.replicate (d - data.length) 0) ++
          List.replicate (d - data.length) (List.replicate d 0)).length = d := by
        simp
        omega
      rw [flatten_getElem?_uniform _ i j huni (by omega) hj]
      by_cases hi2 : i < data.length
      · have hb : (data.map
            (fun row => row ++ List.replicate (d - data.length) 0) ++
            List.replicate (d - data.length) (List.replicate d 0))[i]? =
            some (data.getD i [] ++ List.replicate (d - data.length) 0) := by
          rw [List.getElem?_append, if_pos (by simp; omega),
            List.getElem?_map, getElem?_of_getD [] (by omega)]
          rfl
        rw [getD_of_getElem? hb]
        have hrowlen : (data.getD i []).length = data.length := by
          rw [List.getD_eq_getElem data [] (by omega)]
          exact hrow _ (List.getElem_mem _)
        by_cases hj2 : j < data.length
        · rw [List.getElem?_append, if_pos (by omega),
            getElem?_of_getD 0 (by omega)]
          rw [if_pos ⟨hi2, hj2⟩]
        · rw [List.getElem?_append, if_neg (by omega),
            List.getElem?_replicate, if_pos (by omega)]
          rw [if_neg (by omega)]
      · have hb : (data.map
            (fun row => row ++ List.replicate (d - data.length) 0) ++
            List.replicate (d - data.length) (List.replicate d 0))[i]? =
            some (List.replicate d 0) := by
          rw [List.getElem?_append_right (by simp; omega)]
          rw [List.getElem?_replicate, if_pos (by simp; omega)]
        rw [getD_of_getElem? hb, List.getElem?_replicate, if_pos hj]
        rw [if_neg (by omega)]

/-- C3 witness: encoding a 1x1 matrix with target dimension 2 writes a
4-element buffer whose corner holds the cell value and whose remaining
elements are exactly zero. -/
theorem c3_emx_encode_witness :
    _to_emx ⟨[7], [7], [[5]]⟩ 2 = .ok (emxBuffer [[5]] 2) ∧
    (emxBuffer [[5]] 2).length = 4 ∧
    (emxBuffer [[5]] 2)[0]? = some 5 ∧
    (emxBuffer [[5]] 2)[3]? = some 0 := by
  have h := c3_emx_encode ⟨[7], [7], [[5]]⟩ [[5]] 2 (by decide)
    (by intro row hr; simp at hr; simp [hr]) (by decide)
  refine ⟨h.1, h.2.1, ?_, ?_⟩
  · have := h.2.2 0 0 (by decide) (by decide)
    simpa using this
  · have := h.2.2 1 1 (by decide) (by decide)
    simpa using this

/-- C2: for every rows-by-cols array encoded by the FORTRAN codec with
`min_index = 1`, column 0 of stored row `r` is the raw two's-complement
pattern of the int32 `r+1` (`int32ToWord`, a bit reinterpretation — not
the IEEE encoding of the number `r+1`), and the decoder recovers the
0-based ordinals `0..rows-1` by reinterpreting those patterns back into
int32 and subtracting 1, for every possible data content — in particular
when a data word collides with a small integer pattern. -/
theorem c2_fortran_row_index (array : List (List Nat)) (cols : Nat)
    (hrow : ∀ row ∈ array, row.length = cols)
    (hbound : array.length < 2147483648) :
    (∀ r, r < array.length →
      ((takeRows array.length (cols + 1) (_to_fortran array 1)).getD r
        []).headD 0 = int32ToWord (1 + r)) ∧
    (fortranRowIndex (_to_fortran array 1) cols).length = array.length ∧
    (∀ r, r < array.length →
      (fortranRowIndex (_to_fortran array 1) cols).getD r 0 = (r : Int)) := by
  have hfr_len : (fortranRows 1 array).length = array.length :=
    fortranRows_length 1 array
  have hfr_rows : ∀ r ∈ fortranRows 1 array, r.length = cols + 1 :=
    fortranRows_row_length array 1 hrow
  have hslen : (_to_fortran array 1).length = array.length * (cols + 1) := by
    rw [_to_fortran, flatten_length_uniform _ hfr_rows, hfr_len]
  have hdiv : (_to_fortran array 1).length / (cols + 1) = array.length := by
    rw [hslen]
    exact Nat.mul_div_cancel _ (by omega)
  have htr : takeRows array.length (cols + 1) (_to_fortran array 1) =
      fortranRows 1 array := by
    have := takeRows_flatten (fortranRows 1 array) hfr_rows
    rw [hfr_len] at this
    exact this
  refine ⟨?_, ?_, ?_⟩
  · intro r hr
    rw [htr, fortranRows_getD array 1 r hr]
    rfl
  · rw [fortranRowIndex, List.length_map, takeRows_length, hdiv]
  · intro r hr
    rw [fortranRowIndex, hdiv, htr]
    have hcell : ((fortranRows 1 array).map
        (fun row => int32OfWord (row.headD 0) - 1))[r]? =
        some (int32OfWord ((int32ToWord (1 + (r : Int)) ::
          array.getD r []).headD 0) - 1) := by
      rw [List.getElem?_map, getElem?_of_getD [] (by omega),
        fortranRows_getD array 1 r hr]
      rfl
    rw [getD_of_getElem? hcell, List.headD_cons,
      int32OfWord_int32ToWord _ (by omega) (by omega)]
    ring

/-- C2 witness: a 2x1 array whose second data value is the word 3 — a bit
pattern colliding with the stored int32 index 3 — still decodes row
ordinals 0 and 1. -/
theorem c2_fortran_row_index_witness :
    ((takeRows 2 2 (_to_fortran [[2], [3]] 1)).getD 1 []).headD 0 =
      int32ToWord 2 ∧
    (fortranRowIndex (_to_fortran [[2], [3]] 1) 1).getD 0 0 = 0 ∧
    (fortranRowIndex (_to_fortran [[2], [3]] 1) 1).getD 1 0 = 1 := by
  have h := c2_fortran_row_index [[2], [3]] 1
    (by intro row hr; simp at hr; rcases hr with h | h <;> simp [h])
    (by decide)
  refine ⟨?_, ?_, ?_⟩
  · have := h.1 1 (by decide)
    simpa using this
  · have := h.2.2 0 (by decide)
    simpa using this
  · have := h.2.2 1 (by decide)
    simpa using this

/-- C7 (amended): for an EMX stream of `n*n` elements and integer zones
`k`, the wide (`tall=False`) decoder truncates to the leading `(k, k)`
block, an out-of-range `k > n` silently yielding the whole `(n, n)`
matrix; with `tall=True` the in-place flatten of the `data[:k, :k]` view
succeeds (returning `k*k` elements) exactly when `k = 0`, `k = n`, or
`k = 1` on a nonempty matrix — otherwise numpy raises: a size-mismatch
ValueError when `k > n`, and an in-place-reshape AttributeError when
`2 <= k < n` (the view is not contiguous). -/
theorem c7_emx_int_zones (s : List Nat) (n k : Nat) (h : s.length = n * n) :
    (_from_emx s (.int k) false =
      .ok (.mat (((takeRows n n s).take k).map (List.take k)))) ∧
    (n ≤ k → _from_emx s (.int k) false = .ok (.mat (takeRows n n s))) ∧
    ((k = 0 ∨ k = n ∨ (k = 1 ∧ 1 ≤ n)) → _from_emx s (.int k) true =
      .ok (.flat (flatten (((takeRows n n s).take k).map (List.take k))))) ∧
    (2 ≤ k → k < n → _from_emx s (.int k) true = .error .attributeError) ∧
    (n < k → _from_emx s (.int k) true = .error .valueError) := by
  have hsq : Nat.sqrt s.length = n := by rw [h, Nat.sqrt_eq]
  have hwide : _from_emx s (.int k) false =
      .ok (.mat (((takeRows n n s).take k).map (List.take k))) := by
    unfold _from_emx
    dsimp only
    rw [hsq, h, if_neg (fun hc => hc rfl)]
    rfl
  have htall : _from_emx s (.int k) true =
      (inPlaceFlatten (((takeRows n n s).take k).map (List.take k))
        (min k n) (min k n) n (k * k)).map .flat := by
    unfold _from_emx
    dsimp only
    rw [hsq, h, if_neg (fun hc => hc rfl)]
    rfl
  refine ⟨hwide, ?_, ?_, ?_, ?_⟩
  · intro hk
    rw [hwide]
    have htake : (takeRows n n s).take k = takeRows n n s :=
      List.take_of_length_le (by rw [takeRows_length]; exact hk)
    rw [htake]
    have hmap : (takeRows n n s).map (List.take k) =
        (takeRows n n s).map id :=
      List.map_congr_left (fun r hr => by
        have hlen : r.length = n := takeRows_row_length h r hr
        exact List.take_of_length_le (by omega))
    rw [hmap, List.map_id]
  · intro hcase
    rw [htall]
    rcases hcase with hk | hk | ⟨hk, hn⟩
    · subst hk
      simp [inPlaceFlatten, nocopyOk, Except.map]
    · subst hk
      simp [inPlaceFlatten, nocopyOk, Except.map]
    · subst hk
      have hmin : min 1 n = 1 := by omega
      rw [inPlaceFlatten, hmin, if_neg (by omega)]
      have hnc : nocopyOk 1 1 n = true := by
        simp [nocopyOk]
      rw [if_pos hnc]
      rfl
  · intro hk2 hkn
    rw [htall]
    have hmin : min k n = k := by omega
    rw [inPlaceFlatten, hmin, if_neg (by omega)]
    have hnc : nocopyOk k k n = false := by
      simp only [nocopyOk, decide_eq_false_iff_not]
      push_neg
      exact ⟨Nat.mul_ne_zero (by omega) (by omega), by omega, by omega, by omega⟩
    rw [if_neg (by rw [hnc]; exact Bool.false_ne_true)]
    rfl
  · intro hnk
    rw [htall]
    have hmin : min k n = n := by omega
    have hlt : n * n < k * k := Nat.mul_lt_mul'' hnk hnk
    rw [inPlaceFlatten, hmin, if_pos (by omega)]
    rfl

/-- C7 witness: a 4-element stream (n = 2) with `k = 3` silently yields
the full 2x2 matrix in the wide case, and `k = n = 2` flattens in place
to the 4 elements in the tall case. -/
theorem c7_emx_int_zones_witness :
    _from_emx [1, 2, 3, 4] (Zones.int 3) false = .ok (.mat [[1, 2], [3, 4]]) ∧
    _from_emx [1, 2, 3, 4] (Zones.int 2) true = .ok (.flat [1, 2, 3, 4]) := by
  have h3 := (c7_emx_int_zones [1, 2, 3, 4] 2 3 (by decide)).2.1 (by decide)
  have h2 := (c7_emx_int_zones [1, 2, 3, 4] 2 2 (by decide)).2.2.1
    (Or.inr (Or.inl rfl))
  exact ⟨by simpa [takeRows] using h3, by simpa [takeRows, flatten] using h2⟩

/-- C7 counterexample: the claim as stated promises that an out-of-range
`k` yields a smaller result rather than an error, and that with `tall`
the truncated block comes back flattened to length `k*k`; but decoding a
1-element EMX stream (n = 1) with `zones = 2, tall = True` raises the
in-place reshape size error instead of returning anything. -/
theorem c7_emx_int_zones_cex :
    _from_emx [0] (Zones.int 2) true = .error .valueError := by decide

/-- C8 (amended): for a label sequence `zs` decoded by the rectangular
FORTRAN decoder with `reindex_rows=True`, the result is re-indexed on the
row axis against the full `zs` (its row labels are exactly `zs`), and
every label of `zs` absent from the decoded row labels `L` (obtained by
looking up the stored row indices in `zs`) gets a row of `fill_value`
cells — where `fill_value` is passed straight to pandas and defaults to
`None`, which pandas materializes as NaN (a missing cell), not 0.0. -/
theorem c8_rect_reindex_fill (s : List Nat) (n_columns : Nat)
    (zs : List Int) (fill_value : Option Nat) (L : List Int)
    (hlen : s.length = s.length / (n_columns + 1) * (n_columns + 1))
    (hm : zs.length ≤ n_columns)
    (hlab : fortranRowLabels s n_columns zs = .ok L)
    (hnd : L.Nodup) :
    (_from_fortran_binary s n_columns (.labels zs) false true
      fill_value).map rfIndex = .ok zs ∧
    ∀ p, p < zs.length → zs.getD p 0 ∉ L →
      (_from_fortran_binary s n_columns (.labels zs) false true
        fill_value).map (fun o => (rfRows o).getD p []) =
        .ok (List.replicate zs.length fill_value) := by
  have hres : _from_fortran_binary s n_columns (.labels zs) false true
      fill_value = .ok (.rframe zs zs (zs.map (fun l =>
        match firstIdx L l with
        | some i =>
          (((((takeRows (s.length / (n_columns + 1)) (n_columns + 1) s).map
            (List.drop 1)).take zs.length).map
              (List.take zs.length)).getD i []).map some
        | Option.none => List.replicate zs.length fill_value))) := by
    unfold _from_fortran_binary
    rw [if_neg (fun hc => hc hlen)]
    dsimp only
    simp only [hlab]
    rw [if_pos hm]
    unfold reindexRows
    rw [if_pos hnd]
    simp
  constructor
  · rw [hres]
    rfl
  · intro p hp hnotin
    rw [hres]
    show Except.ok ((zs.map _).getD p []) = _
    have hcell : (zs.map (fun l =>
        match firstIdx L l with
        | some i =>
          (((((takeRows (s.length / (n_columns + 1)) (n_columns + 1) s).map
            (List.drop 1)).take zs.length).map
              (List.take zs.length)).getD i []).map some
        | Option.none => List.replicate zs.length fill_value))[p]? =
        some (List.replicate zs.length fill_value) := by
      rw [List.getElem?_map, getElem?_of_getD 0 hp, Option.map_some']
      simp only [firstIdx_eq_none hnotin]
    rw [getD_of_getElem? hcell]

/-- C8 witness: one stored row with index pattern 1 (row label 10) and a
caller-supplied fill value 9: the absent label 20 receives a row of 9s
after reindexing. -/
theorem c8_rect_reindex_fill_witness :
    (_from_fortran_binary [1, 5, 7] 2 (Zones.labels [10, 20]) false true
      (some 9)).map rfIndex = .ok [10, 20] ∧
    (_from_fortran_binary [1, 5, 7] 2 (Zones.labels [10, 20]) false true
      (some 9)).map (fun o => (rfRows o).getD 1 []) =
      .ok (List.replicate 2 (some 9)) := by
  have h := c8_rect_reindex_fill [1, 5, 7] 2 [10, 20] (some 9) [10]
    (by decide) (by decide) (by decide) (by decide)
  exact ⟨h.1, h.2 1 (by decide) (by decide)⟩

/-- C8 counterexample: with the default `fill_value=None`, the reindexed
row for the absent label 20 is two missing (NaN) cells, not two 0.0
cells — the claim's "defaults to 0.0" fails on the code. -/
theorem c8_rect_reindex_fill_cex :
    _from_fortran_binary [1, 5, 7] 2 (Zones.labels [10, 20]) false true
      Option.none =
      .ok (.rframe [10, 20] [10, 20]
        [[some 5, some 7], [Option.none, Option.none]]) ∧
    (Option.none : Option Nat) ≠ some 0 := by
  constructor
  · decide
  · decide

theorem readN_two (x y : Nat) (t : List Nat) :
    readN 2 (x :: y :: t) = .ok ([x, y], t) := by
  simp [readN]

theorem take_self_of_len {data : List (List Nat)} {n : Nat}
    (h : data.length = n) : data.take n = data := by
  rw [← h]
  exact data.take_length

theorem takeRows_flatten_of_len {data : List (List Nat)} {n c : Nat}
    (hlen : data.length = n) (hrow : ∀ r ∈ data, r.length = c) :
    takeRows n c (flatten data) = data := by
  have := takeRows_flatten data hrow
  rwa [hlen] at this

theorem mdf_roundtrip (zs : List Int) (data : List (List Nat))
    (hlen : data.length = zs.length)
    (hrow : ∀ row ∈ data, row.length = zs.length)
    (hlab : ∀ l ∈ zs, -2147483648 ≤ l ∧ l < 2147483648)
    (hn : 0 < zs.length) (hn32 : zs.length < 4294967296) :
    Except.bind (_to_mdf ⟨zs, zs, data⟩) _from_mdf =
      .ok (.frame ⟨zs, zs, data⟩) := by
  have hco : coerce_matrix ⟨zs, zs, data⟩ true = .ok data := by
    simp [coerce_matrix]
  have hmod : zs.length % 4294967296 = zs.length := Nat.mod_eq_of_lt hn32
  have henc : _to_mdf ⟨zs, zs, data⟩ =
      .ok ([0xC4D4F1B2, 1, 1, 2]
        ++ [zs.length % 4294967296, zs.length % 4294967296]
        ++ zs.map int32ToWord ++ zs.map int32ToWord ++ flatten data) := by
    simp only [_to_mdf, hco]
  rw [henc]
  simp only [Except.bind]
  have hA : (zs.map int32ToWord).length = zs.length := by simp
  have hF : (flatten data).length = zs.length * zs.length := by
    rw [flatten_length_uniform data hrow, hlen]
  simp only [hmod, List.append_assoc, List.cons_append, List.nil_append]
  simp only [_from_mdf, readMdfHeader]
  rw [if_neg (by decide : ¬((3302289842 : Nat) ≠ 3302289842 ∨ (1 : Nat) ≠ 1 ∨
    ¬(0 < (1 : Nat) ∧ 1 ≤ 4) ∨ ¬(0 < (2 : Nat) ∧ 2 ≤ 2)))]
  show mdfBody 1 2 (zs.length :: zs.length ::
    (List.map int32ToWord zs ++ (List.map int32ToWord zs ++ flatten data))) =
    Except.ok (PyObj.frame ⟨zs, zs, data⟩)
  unfold mdfBody
  rw [if_neg (show ¬(2 = 1) by decide)]
  simp only [readN_two, List.getD_cons_zero, List.getD_cons_succ]
  have h1 := readN_exact (zs.map int32ToWord ++ flatten data) hA
  simp only [h1]
  have h2 := readN_exact (flatten data) hA
  simp only [h2]
  unfold readPayload
  rw [if_neg (by decide)]
  have h3 : readN (zs.length * zs.length) (flatten data) =
      .ok (flatten data, []) := by
    rw [← hF]
    exact readN_all (flatten data)
  simp only [h3]
  rw [map_ofWord_toWord zs hlab, takeRows_flatten_of_len hlen hrow]

theorem emx_roundtrip (zs : List Int) (data : List (List Nat))
    (hlen : data.length = zs.length)
    (hrow : ∀ row ∈ data, row.length = zs.length)
    (hn : 0 < zs.length) :
    Except.bind (to_emx ⟨zs, zs, data⟩ zs.length)
      (fun st => _from_emx st (.labels zs) false) =
      .ok (.frame ⟨zs, zs, data⟩) := by
  have hco : coerce_matrix ⟨zs, zs, data⟩ true = .ok data := by
    simp [coerce_matrix]
  have henc : to_emx ⟨zs, zs, data⟩ zs.length = .ok (flatten data) := by
    unfold to_emx
    rw [if_neg (by omega)]
    unfold _to_emx
    simp only [hco]
    unfold emxBuffer
    rw [if_neg (by omega)]
    simp [hlen]
  rw [henc]
  simp only [Except.bind]
  have hF : (flatten data).length = zs.length * zs.length := by
    rw [flatten_length_uniform data hrow, hlen]
  have hsq : Nat.sqrt (flatten data).length = zs.length := by
    rw [hF, Nat.sqrt_eq]
  unfold _from_emx
  dsimp only
  rw [hsq, hF, if_neg (fun hc => hc rfl)]
  rw [takeRows_flatten_of_len hlen hrow, take_self_of_len hlen,
    map_take_of_length data hrow, if_pos (le_refl zs.length)]
  rfl

theorem fortran_roundtrip (zs : List Int) (data : List (List Nat))
    (hlen : data.length = zs.length)
    (hrow : ∀ row ∈ data, row.length = zs.length) :
    Except.bind (to_fortran ⟨zs, zs, data⟩ true 1)
      (fun st => _from_fortran_square st (.labels zs) false) =
      .ok (.frame ⟨zs, zs, data⟩) := by
  have hco : coerce_matrix ⟨zs, zs, data⟩ true = .ok data := by
    simp [coerce_matrix]
  have henc : to_fortran ⟨zs, zs, data⟩ true 1 = .ok (_to_fortran data 1) := by
    unfold to_fortran
    simp only [hco]
  rw [henc]
  simp only [Except.bind]
  have hfr_rows : ∀ r ∈ fortranRows 1 data, r.length = zs.length + 1 :=
    fortranRows_row_length data 1 hrow
  have hfr_len : (fortranRows 1 data).length = zs.length := by
    rw [fortranRows_length, hlen]
  have hslen : (_to_fortran data 1).length = zs.length * (zs.length + 1) := by
    rw [_to_fortran, flatten_length_uniform _ hfr_rows, hfr_len]
  have hinfer : _infer_zones (_to_fortran data 1).length = .ok zs.length := by
    rw [hslen]
    exact infer_zones_exact zs.length
  unfold _from_fortran_square
  simp only [hinfer]
  have h5 : takeRows zs.length (zs.length + 1) (_to_fortran data 1) =
      fortranRows 1 data :=
    takeRows_flatten_of_len hfr_len hfr_rows
  rw [h5, fortranRows_map_drop, take_self_of_len hlen,
    map_take_of_length data hrow, if_pos (le_refl zs.length)]
  rfl

/-- C1: for every square labeled matrix (labels `zs`, float32 cells
`data`, nonempty, with int32-representable labels and a uint32-sized
dimension), decoding the stream produced by encoding returns exactly the
original values and labels for each of the MDF codec, the EMX codec with
matching target dimension, and the FORTRAN-square codec with matching
zone labels. -/
theorem c1_roundtrip (zs : List Int) (data : List (List Nat))
    (hlen : data.length = zs.length)
    (hrow : ∀ row ∈ data, row.length = zs.length)
    (hlab : ∀ l ∈ zs, -2147483648 ≤ l ∧ l < 2147483648)
    (hn : 0 < zs.length) (hn32 : zs.length < 4294967296) :
    Except.bind (_to_mdf ⟨zs, zs, data⟩) _from_mdf =
      .ok (.frame ⟨zs, zs, data⟩) ∧
    Except.bind (to_emx ⟨zs, zs, data⟩ zs.length)
      (fun st => _from_emx st (.labels zs) false) =
      .ok (.frame ⟨zs, zs, data⟩) ∧
    Except.bind (to_fortran ⟨zs, zs, data⟩ true 1)
      (fun st => _from_fortran_square st (.labels zs) false) =
      .ok (.frame ⟨zs, zs, data⟩) :=
  ⟨mdf_roundtrip zs data hlen hrow hlab hn hn32,
    emx_roundtrip zs data hlen hrow hn,
    fortran_roundtrip zs data hlen hrow⟩

/-- C1 witness: the 2x2 labeled matrix with labels [7, 9] round-trips
through all three codecs. -/
theorem c1_roundtrip_witness :
    Except.bind (_to_mdf ⟨[7, 9], [7, 9], [[1, 2], [3, 4]]⟩) _from_mdf =
      .ok (.frame ⟨[7, 9], [7, 9], [[1, 2], [3, 4]]⟩) ∧
    Except.bind (to_emx ⟨[7, 9], [7, 9], [[1, 2], [3, 4]]⟩ 2)
      (fun st => _from_emx st (.labels [7, 9]) false) =
      .ok (.frame ⟨[7, 9], [7, 9], [[1, 2], [3, 4]]⟩) ∧
    Except.bind (to_fortran ⟨[7, 9], [7, 9], [[1, 2], [3, 4]]⟩ true 1)
      (fun st => _from_fortran_square st (.labels [7, 9]) false) =
      .ok (.frame ⟨[7, 9], [7, 9], [[1, 2], [3, 4]]⟩) :=
  c1_roundtrip [7, 9] [[1, 2], [3, 4]]
    (by decide)
    (by intro row hr; simp at hr; rcases hr with h | h <;> simp [h])
    (by decide) (by decide) (by decide)

end MatrixConverters
